import Mathlib

/-!
Verification of `generate_clia_case.py` (mocha_torrent_tools).

The script appends one record to a CLIA case-list CSV file.  We embed its
string-processing core shallowly: Python `str` values become Lean `String`
(resp. `List Char`), Python exceptions become `Option`/`none`, the file system
and process streams become explicit state passed through `mainRun`.
-/

set_option maxHeartbeats 1000000

namespace CliaCase

/-- Python `s.split(sep)` for a one-character separator `sep`:
splits on every occurrence, keeps empty fields, and `"".split(sep) = [""]`. -/
def splitOnChar (sep : Char) : List Char → List (List Char)
  | [] => [[]]
  | c :: cs =>
    if c = sep then [] :: splitOnChar sep cs
    else
      match splitOnChar sep cs with
      | [] => [[c]]
      | l :: ls => (c :: l) :: ls

/-- Helper for `pyReadlines`: scans the character list, accumulating the
current (reversed) line; each `\n` closes a line that keeps its `\n`. -/
def readlinesAux : List Char → List Char → List (List Char)
  | [], acc => if acc.isEmpty then [] else [acc.reverse]
  | c :: cs, acc =>
    if c = '\n' then (acc.reverse ++ ['\n']) :: readlinesAux cs []
    else readlinesAux cs (c :: acc)

/-- Python `fh.readlines()` on a file whose content is `s`: the list of lines,
each keeping its trailing newline; a final fragment without a newline is kept;
an empty file yields the empty list. -/
def pyReadlines (s : String) : List String :=
  (readlinesAux s.data []).map String.mk

/-- Characters stripped by Python `int()` around the literal. -/
def pyIntWs (c : Char) : Bool :=
  c == ' ' || c == '\t' || c == '\n' || c == '\x0b' || c == '\x0c' || c == '\r'

/-- Strip `pyIntWs` characters from both ends. -/
def trimChars (l : List Char) : List Char :=
  ((l.dropWhile pyIntWs).reverse.dropWhile pyIntWs).reverse

/-- Value of a list of decimal digit characters, most significant first. -/
def digitsToNat (l : List Char) : Nat :=
  l.foldl (fun a c => 10 * a + (c.toNat - 48)) 0

/-- Python 2 `int(str)`: optional surrounding whitespace, optional sign,
then a non-empty run of decimal digits; anything else raises (here: `none`). -/
def pyInt (l : List Char) : Option Int :=
  match trimChars l with
  | [] => none
  | c :: cs =>
    if c = '-' then
      if cs ≠ [] ∧ cs.all Char.isDigit then some (-(digitsToNat cs : Int)) else none
    else if c = '+' then
      if cs ≠ [] ∧ cs.all Char.isDigit then some ((digitsToNat cs : Int)) else none
    else if (c :: cs).all Char.isDigit then some ((digitsToNat (c :: cs) : Int)) else none

/-- Decimal digit characters of `n`, most significant first (fuel-based so the
kernel can evaluate it). -/
def natToDigitsAux : Nat → Nat → List Char
  | 0, _ => []
  | fuel + 1, n =>
    if n < 10 then [Nat.digitChar n]
    else natToDigitsAux fuel (n / 10) ++ [Nat.digitChar (n % 10)]

/-- Decimal digit characters of `n`, most significant first. -/
def natToDigits (n : Nat) : List Char :=
  natToDigitsAux (n + 1) n

/-- Left-pad a character list with zero characters up to width `w`. -/
def padZeros (w : Nat) (l : List Char) : List Char :=
  List.replicate (w - l.length) '0' ++ l

/-- Python `"{0:05d}".format(n)`: decimal representation zero-padded to a
minimum total width of 5 (a sign counts towards the width). -/
def format05d (n : Int) : String :=
  if n < 0 then String.mk ('-' :: padZeros 4 (natToDigits n.natAbs))
  else String.mk (padZeros 5 (natToDigits n.toNat))

/-- The body of `gen_casenum` acting on the last line:
split the last entry on commas, take field 0, split that on a hyphen into
exactly two parts (raising otherwise), then increment and zero-pad the
number to 5 digits. -/
def casenumOfLast (last_entry : List Char) : Option String :=
  match splitOnChar '-' ((splitOnChar ',' last_entry).headD []) with
  | [project, number] =>
    match pyInt number with
    | none => none
    | some n => some (String.mk project ++ "-" ++ format05d (n + 1))
  | _ => none

/-- `gen_casenum` of the script, as a function of the case-list file content.
Reads the last line (`readlines()[-1]` raises on an empty file), splits its
first comma-field on `-` into exactly two parts, increments the number and
re-pads it to 5 digits.  `none` models an uncaught Python exception. -/
def gen_casenum (content : String) : Option String :=
  match (pyReadlines content).getLast? with
  | none => none
  | some last_entry => casenumOfLast last_entry.data

/-- Python `v[:-4]`: drop the last 4 characters (empty result when `|v| ≤ 4`). -/
def strip4 (v : String) : String :=
  String.mk (v.data.take (v.data.length - 4))

/-- Python `p.startswith(q)` (here: `pyStartswith q p`). -/
def pyStartswith (q s : String) : Bool :=
  q.data.isPrefixOf s.data

/-- One line of helper output, split on tabs: usable as a dict entry only
when it has exactly two fields. -/
def parseLine (l : List Char) : Option (String × String) :=
  match splitOnChar '\t' l with
  | [k, v] => some (String.mk k, String.mk v)
  | _ => none

/-- All lines in order; any line that is not a key/value pair makes
`dict(...)` raise `ValueError` (modelled as `none`). -/
def parseLines : List (List Char) → Option (List (String × String))
  | [] => some []
  | l :: ls => (parseLine l).bind fun kv => (parseLines ls).map fun rest => kv :: rest

/-- The line-parsing step of `get_msn_list`:
a dict built from the tab-splits of all non-empty newline-separated lines.
Empty lines are dropped by the `if x` guard; a remaining line that does not
split into exactly two tab-fields makes `dict(...)` raise `ValueError`. -/
def helperParse (result : String) : Option (List (String × String)) :=
  parseLines ((splitOnChar '\n' result.data).filter (fun l => !l.isEmpty))

/-- The effect of inserting `kv` on one existing entry: the value is
overwritten where the key matches. -/
def overwritePair (k0 v0 : String) (p : String × String) : String × String :=
  if p.1 == k0 then (p.1, v0) else p

/-- One Python `dict` insertion: overwrite the value of an existing key in
place, otherwise add the pair at the end. -/
def insertPair (d : List (String × String)) (kv : String × String) :
    List (String × String) :=
  if d.any (fun p => p.1 == kv.1) then d.map (overwritePair kv.1 kv.2)
  else d ++ [kv]

/-- Python `dict(pairs)`: left-to-right insertion with overwrite. -/
def pyDict (pairs : List (String × String)) : List (String × String) :=
  pairs.foldl insertPair []

/-- The multiset of `dict(pairs).values()`. -/
def pyDictValues (pairs : List (String × String)) : List String :=
  (pyDict pairs).map (fun p => p.2)

/-- Key lookup in the association list representing a Python dict. -/
def pyDictLookup (d : List (String × String)) (k : String) : Option String :=
  (d.find? (fun p => p.1 == k)).map (fun p => p.2)

/-- The pedmatch regex search succeeding on `v` (pattern
`^10[0-9]{3}-[DR]NA`): the pattern is anchored
at the start, so it holds exactly of strings with that 9-character prefix. -/
def pedmatchRe : List Char → Bool
  | '1' :: '0' :: a :: b :: c :: '-' :: x :: 'N' :: 'A' :: _ =>
    a.isDigit && b.isDigit && c.isDigit && (x == 'D' || x == 'R')
  | _ => false

/-- The `INFO` line `get_msn_list` writes to stderr in pedmatch mode. -/
def msnInfoMsg (pedmatch : Bool) : String :=
  if pedmatch then ("INFO: This is a pediatric MATCH run.\n") else ""

/-- `get_msn_list` of the script, as a function of the captured helper output
`result`.  Builds the dict, filters its values (prefix `MSN` in standard mode,
`pedmatchRe` in pedmatch mode), strips the last 4 characters of each kept
value and deduplicates.  `none` models the uncaught `ValueError` from
`dict(...)`; the returned order is irrelevant (Python iterates a `set`). -/
def get_msn_list (result : String) (pedmatch : Bool) : Option (List String) :=
  match helperParse result with
  | none => none
  | some pairs =>
    let msns :=
      if pedmatch then (pyDictValues pairs).filter (fun v => pedmatchRe v.data)
      else (pyDictValues pairs).filter (fun v => pyStartswith ("MSN") v)
    some ((msns.map strip4).dedup)

/-- `\w` of a Python 2 byte-string regex: `[A-Za-z0-9_]`. -/
def wordChar (c : Char) : Bool :=
  c.isAlpha || c.isDigit || c == '_'

/-- Python `s.rstrip` with a slash argument: drop all trailing slashes. -/
def rstripSlash (s : String) : String :=
  String.mk ((s.data.reverse.dropWhile (fun c => c == '/')).reverse)

/-- Python `os.path.basename`: everything after the last `/`. -/
def pyBasename (s : String) : String :=
  String.mk ((s.data.reverse.takeWhile (fun c => c != '/')).reverse)

/-- One `_\d+` group of the run-name regex, read from the right end of the
(reversed) string: a non-empty digit run followed by `_`; returns what is
left before the `_`. -/
def stripDigitsUnderscore (l : List Char) : Option (List Char) :=
  if l.takeWhile Char.isDigit ≠ [] ∧
      (l.dropWhile Char.isDigit).head? = some '_' then
    some (l.dropWhile Char.isDigit).tail
  else none

/-- The conditions the regex puts on the captured group `(.*?\w{3})`: at
least 3 characters, the last 3 word characters, and (because `.` does not
match a newline) no newline anywhere. -/
def checkName (name : List Char) : Option (List Char) :=
  if 3 ≤ name.length ∧ (name.reverse.take 3).all wordChar = true ∧
      name.all (fun c => c != '\n') = true then
    some name
  else none

/-- The Python `$` anchor (no MULTILINE flag): it matches at the very end of
the string or just before a single newline that ends the string, so matching
backwards from `$` starts after dropping one final newline if present. -/
def stripFinalNewline (l : List Char) : List Char :=
  match l.getLast? with
  | some c => if c = '\n' then l.dropLast else l
  | none => l

/-- The optional `\/?` just before the anchor: when the remaining text ends
with a slash the regex must consume it there (a slash is neither part of
`\d+` nor accepted by `$`), otherwise nothing is consumed. -/
def stripFinalSlash (l : List Char) : List Char :=
  match l.getLast? with
  | some c => if c = '/' then l.dropLast else l
  | none => l

/-- The run-name regex search on `s` (pattern
`^Auto_user_(.*?\w{3})_\d+_\d+\/?$`), returning the
captured group.  Both anchors are present and `\d+` cannot cross `_`, so
after accounting for `$` (which also matches before a single trailing
newline) and the optional final slash, a match decomposes the rest of `s`
uniquely as `Auto_user_<name>_<d1>_<d2>` with `d1`, `d2` non-empty digit
runs (peeled off the right end), and the group is everything in between,
subject to `checkName`. -/
def matchRunname (s : List Char) : Option (List Char) :=
  if s.take 10 = ("Auto_user_").data then
    (stripDigitsUnderscore
        (stripFinalSlash (stripFinalNewline (s.drop 10))).reverse).bind fun r2 =>
      (stripDigitsUnderscore r2).bind fun r4 => checkName r4.reverse
  else none

/-- The warning `get_runname` prints when the pattern does not match.
It is written with `sys.stdout.write`, i.e. to standard output. -/
def warnMsg (rundir : String) : String :=
  "WARN: atypical run name \x27" ++ rundir ++
    "\x27.  Using full dirname as run name.\n"

/-- Result of `get_runname`: the returned name plus what the call wrote to
the standard output and standard error streams. -/
structure RunnameOut where
  name : String
  toStdout : String
  toStderr : String
deriving DecidableEq

/-- `get_runname` of the script: regex-extract the name from the basename of
the rstripped path; on no match, fall back to the whole input and warn on
standard output (the `except AttributeError` branch writes to `sys.stdout`).
Nothing is ever written to standard error. -/
def get_runname (rundir : String) : RunnameOut :=
  match matchRunname (pyBasename (rstripSlash rundir)).data with
  | some name => ⟨String.mk name, "", ""⟩
  | none => ⟨rundir, warnMsg rundir, ""⟩

/-- Python comma-join of a list of strings. -/
def joinComma : List String → String
  | [] => ""
  | [x] => x
  | x :: y :: ys => x ++ "," ++ joinComma (y :: ys)

/-- The record text: the comma-join of the case number, the comma-joined
sample list, and the run name. -/
def entryString (run_name : String) (msns : List String) (new_casenum : String) :
    String :=
  joinComma [new_casenum, joinComma msns, run_name]

/-- `gen_case_list_string` of the script, acting on the case-list file
content: open in append mode and write the record plus a newline. -/
def gen_case_list_string (run_name : String) (msns : List String)
    (new_casenum : String) (content : String) : String :=
  content ++ entryString run_name msns new_casenum ++ "\n"

/-- The backup file name built in `__main__`: a dot, then the case-list
file name, then `.bak`. -/
def bakFileName (cfile : String) : String :=
  "." ++ cfile ++ ".bak"

/-- Python `os.path.split`: split at the last `/`; the head keeps no trailing
slashes unless it consists only of slashes. -/
def pySplitPath (p : String) : String × String :=
  let rev := p.data.reverse
  let tail := (rev.takeWhile (fun c => c != '/')).reverse
  let head0 := (rev.dropWhile (fun c => c != '/')).reverse
  let head :=
    if head0.isEmpty || head0.all (fun c => c == '/') then head0
    else (head0.reverse.dropWhile (fun c => c == '/')).reverse
  (String.mk head, String.mk tail)

/-- Python `os.path.join` for two components. -/
def pyJoin (a b : String) : String :=
  if pyStartswith ("/") b then b
  else if a == "" || a.data.getLast? == some '/' then a ++ b
  else a ++ "/" ++ b

/-- Full path of the backup file written by `__main__` for a case-list path:
`os.path.join` of the directory part with the dot-prefixed, `.bak`-suffixed
file name. -/
def backupPath (caselist : String) : String :=
  let pn := pySplitPath caselist
  pyJoin pn.1 (bakFileName pn.2)

/-- How a run of the script ends: normal exit 0, `sys.exit(1)`, or an
uncaught exception (also a non-zero process status). -/
inductive Outcome where
  | ok
  | errorExit
  | exception
deriving DecidableEq

/-- Process exit status for each outcome. -/
def exitCode : Outcome → Nat
  | .ok => 0
  | .errorExit => 1
  | .exception => 1

/-- The files the script touches: the case-list content and the backup file
content (`none` when no backup file exists yet). -/
structure ProgState where
  caselist : String
  backup : Option String
deriving DecidableEq

/-- Observable result of one invocation: outcome, both streams, the path the
backup was written to, and the final file state. -/
structure MainResult where
  outcome : Outcome
  stdoutText : String
  stderrText : String
  bakPath : String
  state : ProgState
deriving DecidableEq

/-- The `__main__` block as a state transformer.  Inputs: the two positional
arguments (`rundir`, `caselistPath`), the `--pedmatch` flag, the helper
output captured by `get_msn_list`, and the current file state.  Steps, in
source order: back up the case-list, extract the run name, collect the MSNs
(a `dict` failure is an uncaught exception), exit 1 if none were found,
generate the next case number (a failure there is an uncaught exception),
append the new record. -/
def mainRun (rundir : String) (pedmatch : Bool) (helperOut : String)
    (caselistPath : String) (st : ProgState) : MainResult :=
  match get_msn_list helperOut pedmatch with
  | none =>
    ⟨.exception, (get_runname rundir).toStdout, "", backupPath caselistPath,
      ⟨st.caselist, some st.caselist⟩⟩
  | some msns =>
    if msns.length < 1 then
      ⟨.errorExit, (get_runname rundir).toStdout,
        msnInfoMsg pedmatch ++
          "ERROR: No valid MSNs found in run plan! Can not continue.\n",
        backupPath caselistPath, ⟨st.caselist, some st.caselist⟩⟩
    else
      match gen_casenum st.caselist with
      | none =>
        ⟨.exception, (get_runname rundir).toStdout, msnInfoMsg pedmatch,
          backupPath caselistPath, ⟨st.caselist, some st.caselist⟩⟩
      | some cn =>
        ⟨.ok,
          (get_runname rundir).toStdout ++ "Adding new entry to case list file:\n" ++
            entryString (get_runname rundir).name msns cn ++ "\n",
          msnInfoMsg pedmatch, backupPath caselistPath,
          ⟨gen_case_list_string (get_runname rundir).name msns cn st.caselist,
            some st.caselist⟩⟩

/-! ### Supporting lemmas -/

theorem str_ext (s t : String) (h : s.data = t.data) : s = t := by
  cases s; cases t
  exact congrArg String.mk (by simpa using h)

theorem data_append (s t : String) : (s ++ t).data = s.data ++ t.data := rfl

theorem mk_data (s : String) : String.mk s.data = s := by
  cases s; rfl

theorem splitOnChar_ne_nil (sep : Char) (l : List Char) : splitOnChar sep l ≠ [] := by
  induction l with
  | nil => simp [splitOnChar]
  | cons c cs ih =>
    by_cases hc : c = sep
    · simp [splitOnChar, hc]
    · simp only [splitOnChar, hc, if_false]
      cases h : splitOnChar sep cs with
      | nil => exact absurd h ih
      | cons x xs => simp

theorem splitOnChar_append_sep (sep : Char) (a b : List Char) :
    splitOnChar sep (a ++ sep :: b) = splitOnChar sep a ++ splitOnChar sep b := by
  induction a with
  | nil => simp [splitOnChar]
  | cons c cs ih =>
    by_cases hc : c = sep
    · simp [splitOnChar, hc, ih]
    · simp only [List.cons_append, splitOnChar, hc, if_false, List.append_eq]
      rw [ih]
      cases h : splitOnChar sep cs with
      | nil => exact absurd h (splitOnChar_ne_nil sep cs)
      | cons x xs => simp

theorem splitOnChar_eq_single (sep : Char) (l : List Char) (h : ∀ c ∈ l, c ≠ sep) :
    splitOnChar sep l = [l] := by
  induction l with
  | nil => rfl
  | cons c cs ih =>
    have hc : c ≠ sep := h c (by simp)
    have ih' := ih (fun x hx => h x (by simp [hx]))
    simp [splitOnChar, hc, ih']

theorem takeWhile_all_append {α : Type} (p : α → Bool) (l : List α) (c : α) (m : List α)
    (hl : l.all p = true) (hc : p c = false) :
    (l ++ c :: m).takeWhile p = l := by
  induction l with
  | nil => simp [List.takeWhile, hc]
  | cons x xs ih =>
    simp only [List.all_cons, Bool.and_eq_true] at hl
    simp [List.takeWhile, hl.1, ih hl.2]

theorem dropWhile_all_append {α : Type} (p : α → Bool) (l : List α) (c : α) (m : List α)
    (hl : l.all p = true) (hc : p c = false) :
    (l ++ c :: m).dropWhile p = c :: m := by
  induction l with
  | nil => simp [List.dropWhile, hc]
  | cons x xs ih =>
    simp only [List.all_cons, Bool.and_eq_true] at hl
    simp [List.dropWhile, hl.1, ih hl.2]

theorem dropWhile_eq_self_of_forall {α : Type} (p : α → Bool) (l : List α)
    (h : ∀ c ∈ l, p c = false) : l.dropWhile p = l := by
  cases l with
  | nil => rfl
  | cons x xs => simp [List.dropWhile, h x (by simp)]

theorem pyIntWs_eq_false_of_isDigit (c : Char) (h : c.isDigit = true) :
    pyIntWs c = false := by
  by_contra hws
  rw [Bool.not_eq_false] at hws
  simp only [pyIntWs, Bool.or_eq_true, beq_iff_eq] at hws
  rcases hws with ((((h1 | h1) | h1) | h1) | h1) | h1 <;> subst h1 <;>
    exact absurd h (by decide)

theorem trimChars_eq_self (l : List Char) (h : l.all Char.isDigit = true) :
    trimChars l = l := by
  have h1 : ∀ c ∈ l, pyIntWs c = false := fun c hc =>
    pyIntWs_eq_false_of_isDigit c (by rw [List.all_eq_true] at h; exact h c hc)
  unfold trimChars
  rw [dropWhile_eq_self_of_forall _ _ h1,
    dropWhile_eq_self_of_forall _ _ (fun c hc => h1 c (List.mem_reverse.mp hc)),
    List.reverse_reverse]

theorem digitsToNat_append_singleton (l : List Char) (c : Char) :
    digitsToNat (l ++ [c]) = 10 * digitsToNat l + (c.toNat - 48) := by
  unfold digitsToNat
  rw [List.foldl_append]
  rfl

theorem digitsToNat_replicate_zero_append (k : Nat) (l : List Char) :
    digitsToNat (List.replicate k '0' ++ l) = digitsToNat l := by
  unfold digitsToNat
  rw [List.foldl_append]
  congr 1
  induction k with
  | zero => rfl
  | succ n ih =>
    rw [List.replicate_succ, List.foldl_cons]
    have hz : (10 * 0 + (('0').toNat - 48)) = 0 := by decide
    rw [hz, ih]

theorem pyInt_digits (l : List Char) (h1 : l ≠ []) (h2 : l.all Char.isDigit = true) :
    pyInt l = some ((digitsToNat l : Int)) := by
  unfold pyInt
  rw [trimChars_eq_self l h2]
  cases l with
  | nil => exact absurd rfl h1
  | cons c cs =>
    simp only [List.all_cons, Bool.and_eq_true] at h2
    have hminus : ¬ c = '-' := by
      intro e; subst e; exact absurd h2.1 (by decide)
    have hplus : ¬ c = '+' := by
      intro e; subst e; exact absurd h2.1 (by decide)
    simp [hminus, hplus, h2.1, h2.2, List.all_cons]

theorem digitChar_spec (n : Nat) (h : n < 10) :
    (Nat.digitChar n).isDigit = true ∧ (Nat.digitChar n).toNat - 48 = n := by
  interval_cases n <;> exact ⟨by decide, by decide⟩

theorem natToDigitsAux_spec :
    ∀ fuel n, n < fuel →
      (natToDigitsAux fuel n).all Char.isDigit = true ∧
        digitsToNat (natToDigitsAux fuel n) = n ∧ natToDigitsAux fuel n ≠ [] := by
  intro fuel
  induction fuel with
  | zero => intro n h; exact absurd h (Nat.not_lt_zero n)
  | succ f ih =>
    intro n h
    unfold natToDigitsAux
    by_cases h10 : n < 10
    · rw [if_pos h10]
      have hd := digitChar_spec n h10
      refine ⟨by simp [hd.1], ?_, by simp⟩
      have hsing : digitsToNat [Nat.digitChar n] = (Nat.digitChar n).toNat - 48 := by
        unfold digitsToNat
        simp
      rw [hsing, hd.2]
    · rw [if_neg h10]
      have hpos : 0 < n := by omega
      have hlt : n / 10 < f := by
        have := Nat.div_lt_self hpos (by norm_num : (1 : Nat) < 10)
        omega
      obtain ⟨ha, hb, hc⟩ := ih (n / 10) hlt
      have hm := digitChar_spec (n % 10) (Nat.mod_lt n (by norm_num))
      refine ⟨by simp [List.all_append, ha, hm.1], ?_, by simp⟩
      rw [digitsToNat_append_singleton, hb, hm.2]
      omega

theorem natToDigits_spec (n : Nat) :
    (natToDigits n).all Char.isDigit = true ∧
      digitsToNat (natToDigits n) = n ∧ natToDigits n ≠ [] :=
  natToDigitsAux_spec (n + 1) n (by omega)

theorem padZeros_all_digit (w : Nat) (l : List Char) (h : l.all Char.isDigit = true) :
    (padZeros w l).all Char.isDigit = true := by
  simp only [padZeros, List.all_append, Bool.and_eq_true]
  refine ⟨?_, h⟩
  rw [List.all_eq_true]
  intro c hcmem
  rw [List.eq_of_mem_replicate hcmem]
  decide

theorem digitsToNat_padZeros (w : Nat) (l : List Char) :
    digitsToNat (padZeros w l) = digitsToNat l :=
  digitsToNat_replicate_zero_append _ l

theorem padZeros_ne_nil (w : Nat) (l : List Char) (h : l ≠ []) : padZeros w l ≠ [] := by
  simp [padZeros, h]

theorem format05d_nonneg (n : Nat) :
    format05d (n : Int) = String.mk (padZeros 5 (natToDigits n)) := by
  unfold format05d
  rw [if_neg (by omega : ¬ ((n : Int) < 0))]
  simp

theorem readlinesAux_nil (acc : List Char) :
    readlinesAux [] acc = if acc.isEmpty then [] else [acc.reverse] := rfl

theorem readlinesAux_cons (c : Char) (cs acc : List Char) :
    readlinesAux (c :: cs) acc =
      if c = '\n' then (acc.reverse ++ ['\n']) :: readlinesAux cs []
      else readlinesAux cs (c :: acc) := rfl

theorem readlinesAux_eq_nil_iff (l : List Char) :
    ∀ acc, readlinesAux l acc = [] ↔ l = [] ∧ acc = [] := by
  induction l with
  | nil => intro acc; cases acc <;> simp [readlinesAux]
  | cons c cs ih =>
    intro acc
    by_cases hc : c = '\n' <;> simp [readlinesAux, hc, ih]

theorem readlinesAux_append (q : List Char) :
    ∀ (p acc : List Char), p.getLast? = some '\n' →
      readlinesAux (p ++ q) acc = readlinesAux p acc ++ readlinesAux q [] := by
  intro p
  induction p with
  | nil => intro acc h; simp at h
  | cons c cs ih =>
    intro acc h
    cases cs with
    | nil =>
      have hc : c = '\n' := by simpa using h
      subst hc
      rw [List.cons_append, readlinesAux_cons, readlinesAux_cons]
      simp [readlinesAux_nil]
    | cons d ds =>
      have h' : (d :: ds).getLast? = some '\n' := by
        rwa [List.getLast?_cons_cons] at h
      rw [List.cons_append, readlinesAux_cons, readlinesAux_cons]
      by_cases hc : c = '\n'
      · rw [if_pos hc, if_pos hc, ih [] h']
        simp
      · rw [if_neg hc, if_neg hc]
        exact ih _ h'

theorem readlinesAux_line (l : List Char) (h : ∀ c ∈ l, c ≠ '\n') :
    ∀ acc, readlinesAux (l ++ ['\n']) acc = [acc.reverse ++ l ++ ['\n']] := by
  induction l with
  | nil => intro acc; rw [List.nil_append, readlinesAux_cons]; simp [readlinesAux_nil]
  | cons c cs ih =>
    intro acc
    have hc : c ≠ '\n' := h c (by simp)
    rw [List.cons_append, readlinesAux_cons, if_neg hc,
      ih (fun x hx => h x (by simp [hx])) (c :: acc)]
    simp

theorem pyReadlines_eq_nil_iff (s : String) : pyReadlines s = [] ↔ s = "" := by
  unfold pyReadlines
  rw [List.map_eq_nil_iff, readlinesAux_eq_nil_iff]
  constructor
  · rintro ⟨h, -⟩; exact str_ext _ _ (by simpa using h)
  · intro h; subst h; exact ⟨rfl, rfl⟩

theorem pyReadlines_append_line (content line : String)
    (hc : content = "" ∨ content.data.getLast? = some '\n')
    (hl : ∀ c ∈ line.data, c ≠ '\n') :
    pyReadlines (content ++ line ++ "\n") = pyReadlines content ++ [line ++ "\n"] := by
  unfold pyReadlines
  have hdata : (content ++ line ++ "\n").data =
      content.data ++ (line.data ++ ['\n']) := by
    rw [data_append, data_append, List.append_assoc]
  rw [hdata]
  have hmkline : String.mk (line.data ++ ['\n']) = line ++ "\n" :=
    str_ext _ _ (by rw [data_append])
  rcases hc with h | h
  · subst h
    rw [show (("" : String)).data = [] from rfl, List.nil_append,
      readlinesAux_line line.data hl []]
    simp [hmkline, readlinesAux_nil]
  · rw [readlinesAux_append _ _ _ h, readlinesAux_line line.data hl []]
    simp [hmkline]

theorem ne_of_isDigit (c : Char) (h : c.isDigit = true) (d : Char)
    (hd : d.isDigit = false) : c ≠ d := by
  intro e
  subst e
  rw [h] at hd
  cases hd

theorem all_digit_ne (l : List Char) (h : l.all Char.isDigit = true) (d : Char)
    (hd : d.isDigit = false) : ∀ c ∈ l, c ≠ d := by
  intro c hc
  rw [List.all_eq_true] at h
  exact ne_of_isDigit c (h c hc) d hd

theorem casenumOfLast_spec (last : List Char) (project digits : String)
    (hfield : (splitOnChar ',' last).headD [] = project.data ++ '-' :: digits.data)
    (hproj : ∀ c ∈ project.data, c ≠ '-')
    (hd1 : digits.data ≠ []) (hd2 : digits.data.all Char.isDigit = true) :
    casenumOfLast last =
      some (project ++ "-" ++ format05d ((digitsToNat digits.data : Int) + 1)) := by
  unfold casenumOfLast
  rw [hfield, splitOnChar_append_sep, splitOnChar_eq_single '-' project.data hproj,
    splitOnChar_eq_single '-' digits.data (all_digit_ne _ hd2 '-' (by decide)),
    List.singleton_append]
  show (match pyInt digits.data with
    | none => none
    | some n => some (String.mk project.data ++ "-" ++ format05d (n + 1))) = _
  rw [pyInt_digits digits.data hd1 hd2]

theorem gen_casenum_of_last (content last : String)
    (hlast : (pyReadlines content).getLast? = some last) :
    gen_casenum content = casenumOfLast last.data := by
  unfold gen_casenum
  rw [hlast]

theorem gen_casenum_spec (content last project digits : String)
    (hlast : (pyReadlines content).getLast? = some last)
    (hfield : (splitOnChar ',' last.data).headD [] = project.data ++ '-' :: digits.data)
    (hproj : ∀ c ∈ project.data, c ≠ '-')
    (hd1 : digits.data ≠ []) (hd2 : digits.data.all Char.isDigit = true) :
    gen_casenum content =
      some (project ++ "-" ++ format05d ((digitsToNat digits.data : Int) + 1)) := by
  rw [gen_casenum_of_last content last hlast]
  exact casenumOfLast_spec last.data project digits hfield hproj hd1 hd2

theorem headD_split_comma (cn rest : List Char) (h : ∀ c ∈ cn, c ≠ ',') :
    (splitOnChar ',' (cn ++ ',' :: rest)).headD [] = cn := by
  rw [splitOnChar_append_sep, splitOnChar_eq_single ',' cn h]
  rfl

theorem joinComma_cons_cons (x y : String) (ys : List String) :
    joinComma (x :: y :: ys) = x ++ "," ++ joinComma (y :: ys) := rfl

theorem joinComma_single (x : String) : joinComma [x] = x := rfl

theorem entryString_eq (rn : String) (msns : List String) (cn : String) :
    entryString rn msns cn = cn ++ "," ++ (joinComma msns ++ "," ++ rn) := by
  unfold entryString
  rw [joinComma_cons_cons, joinComma_cons_cons, joinComma_single]

theorem joinComma_no_char (msns : List String) (c : Char) (hc : c ≠ ',')
    (h : ∀ m ∈ msns, ∀ x ∈ m.data, x ≠ c) : ∀ x ∈ (joinComma msns).data, x ≠ c := by
  induction msns with
  | nil => intro x hx; simp [joinComma] at hx
  | cons m ms ih =>
    cases ms with
    | nil => exact fun x hx => h m (by simp) x hx
    | cons m2 ms2 =>
      rw [joinComma_cons_cons]
      intro x hx
      rw [data_append, data_append] at hx
      rcases List.mem_append.mp hx with hx1 | hx2
      · rcases List.mem_append.mp hx1 with hxa | hxb
        · exact h m (by simp) x hxa
        · have : x = ',' := by simpa using hxb
          rw [this]; exact fun e => hc e.symm
      · exact ih (fun m hm => h m (by simp [hm])) x hx2

theorem entry_no_newline (rn : String) (msns : List String) (cn : String)
    (hcn : ∀ c ∈ cn.data, c ≠ '\n')
    (hmsns : ∀ m ∈ msns, ∀ c ∈ m.data, c ≠ '\n')
    (hrn : ∀ c ∈ rn.data, c ≠ '\n') :
    ∀ c ∈ (entryString rn msns cn).data, c ≠ '\n' := by
  rw [entryString_eq]
  intro c hc
  simp only [data_append, List.append_assoc, List.mem_append,
    show ((",") : String).data = [','] from rfl, List.mem_singleton] at hc
  rcases hc with h | h | h | h | h
  · exact hcn c h
  · rw [h]; decide
  · exact joinComma_no_char msns '\n' (by decide) hmsns c h
  · rw [h]; decide
  · exact hrn c h

theorem getLast?_append_right {α : Type} (l m : List α) (h : m ≠ []) :
    (l ++ m).getLast? = m.getLast? := by
  induction l with
  | nil => rfl
  | cons c cs ih =>
    rw [List.cons_append]
    cases hcm : cs ++ m with
    | nil => exact absurd (List.append_eq_nil.mp hcm).2 h
    | cons x xs => rw [List.getLast?_cons_cons, ← hcm, ih]

theorem stripFinalNewline_id (l : List Char) (h : l.getLast? ≠ some '\n') :
    stripFinalNewline l = l := by
  unfold stripFinalNewline
  cases hg : l.getLast? with
  | none => rfl
  | some c =>
    have hc : ¬ c = '\n' := fun e => h (by rw [hg, e])
    show (if c = '\n' then l.dropLast else l) = l
    rw [if_neg hc]

theorem stripFinalNewline_strip (l : List Char) :
    stripFinalNewline (l ++ ['\n']) = l := by
  unfold stripFinalNewline
  rw [List.getLast?_concat]
  show (if ('\n' : Char) = '\n' then (l ++ ['\n']).dropLast else l ++ ['\n']) = l
  rw [if_pos rfl, List.dropLast_concat]

theorem stripFinalSlash_id (l : List Char) (h : l.getLast? ≠ some '/') :
    stripFinalSlash l = l := by
  unfold stripFinalSlash
  cases hg : l.getLast? with
  | none => rfl
  | some c =>
    have hc : ¬ c = '/' := fun e => h (by rw [hg, e])
    show (if c = '/' then l.dropLast else l) = l
    rw [if_neg hc]

theorem stripDigitsUnderscore_spec (d rest : List Char) (hd : d ≠ [])
    (hdig : d.all Char.isDigit = true) :
    stripDigitsUnderscore (d ++ '_' :: rest) = some rest := by
  unfold stripDigitsUnderscore
  rw [takeWhile_all_append Char.isDigit d '_' rest hdig (by decide),
    dropWhile_all_append Char.isDigit d '_' rest hdig (by decide)]
  rw [if_pos ⟨hd, rfl⟩]
  rfl

theorem matchRunname_decomp (name d1 d2 suffix : List Char)
    (hd1n : d1 ≠ []) (hd1 : d1.all Char.isDigit = true)
    (hd2n : d2 ≠ []) (hd2 : d2.all Char.isDigit = true)
    (hlen : 3 ≤ name.length) (hword : (name.reverse.take 3).all wordChar = true)
    (hnl : name.all (fun c => c != '\n') = true)
    (hsuf : suffix = [] ∨ suffix = ['\n']) :
    matchRunname (("Auto_user_").data ++
      (name ++ ('_' :: (d1 ++ ('_' :: (d2 ++ suffix)))))) = some name := by
  obtain ⟨e, he⟩ : ∃ e, d2.getLast? = some e := by
    cases hg : d2.getLast? with
    | none => exact absurd (List.getLast?_eq_none_iff.mp hg) hd2n
    | some e => exact ⟨e, rfl⟩
  have hedig : e.isDigit = true :=
    List.all_eq_true.mp hd2 e (List.mem_of_getLast?_eq_some he)
  have hlastX : (name ++ ('_' :: (d1 ++ ('_' :: d2)))).getLast? = some e := by
    rw [getLast?_append_right name _ (by simp),
      show ('_' :: (d1 ++ ('_' :: d2))) = ('_' :: d1) ++ ('_' :: d2) from by simp,
      getLast?_append_right _ _ (by simp),
      show ('_' :: d2) = ['_'] ++ d2 from rfl,
      getLast?_append_right _ _ hd2n, he]
  have hstrip : stripFinalSlash (stripFinalNewline
      (name ++ ('_' :: (d1 ++ ('_' :: (d2 ++ suffix)))))) =
      name ++ ('_' :: (d1 ++ ('_' :: d2))) := by
    have hnnl : (name ++ ('_' :: (d1 ++ ('_' :: d2)))).getLast? ≠ some '\n' := by
      rw [hlastX]
      simp only [ne_eq, Option.some.injEq]
      exact ne_of_isDigit e hedig '\n' (by decide)
    have hnsl : (name ++ ('_' :: (d1 ++ ('_' :: d2)))).getLast? ≠ some '/' := by
      rw [hlastX]
      simp only [ne_eq, Option.some.injEq]
      exact ne_of_isDigit e hedig '/' (by decide)
    rcases hsuf with rfl | rfl
    · rw [show d2 ++ ([] : List Char) = d2 from by simp,
        stripFinalNewline_id _ hnnl, stripFinalSlash_id _ hnsl]
    · rw [show name ++ ('_' :: (d1 ++ ('_' :: (d2 ++ ['\n'])))) =
          (name ++ ('_' :: (d1 ++ ('_' :: d2)))) ++ ['\n'] from by
            simp [List.append_assoc],
        stripFinalNewline_strip, stripFinalSlash_id _ hnsl]
  unfold matchRunname
  have htake : ((("Auto_user_").data ++
      (name ++ ('_' :: (d1 ++ ('_' :: (d2 ++ suffix)))))).take 10) =
      ("Auto_user_").data :=
    List.take_left' rfl
  have hdrop : ((("Auto_user_").data ++
      (name ++ ('_' :: (d1 ++ ('_' :: (d2 ++ suffix)))))).drop 10) =
      name ++ ('_' :: (d1 ++ ('_' :: (d2 ++ suffix)))) :=
    List.drop_left' rfl
  rw [htake, hdrop, if_pos rfl, hstrip]
  have hrev : (name ++ ('_' :: (d1 ++ ('_' :: d2)))).reverse =
      d2.reverse ++ ('_' :: (d1.reverse ++ ('_' :: name.reverse))) := by
    simp [List.reverse_append, List.append_assoc]
  rw [hrev,
    stripDigitsUnderscore_spec d2.reverse _ (by simpa using hd2n) (by simpa using hd2),
    Option.some_bind,
    stripDigitsUnderscore_spec d1.reverse _ (by simpa using hd1n) (by simpa using hd1),
    Option.some_bind]
  unfold checkName
  rw [List.reverse_reverse, if_pos ⟨hlen, hword, hnl⟩]

theorem get_runname_of_match (rundir : String) (nm : List Char)
    (h : matchRunname (pyBasename (rstripSlash rundir)).data = some nm) :
    get_runname rundir = ⟨String.mk nm, "", ""⟩ := by
  unfold get_runname
  rw [h]

theorem get_runname_of_none (rundir : String)
    (h : matchRunname (pyBasename (rstripSlash rundir)).data = none) :
    get_runname rundir = ⟨rundir, warnMsg rundir, ""⟩ := by
  unfold get_runname
  rw [h]

theorem parseLine_eq_none (l : List Char) :
    parseLine l = none ↔ (splitOnChar '\t' l).length ≠ 2 := by
  unfold parseLine
  cases h : splitOnChar '\t' l with
  | nil => simp
  | cons a t =>
    cases t with
    | nil => simp
    | cons b t2 =>
      cases t2 with
      | nil => simp
      | cons c t3 => simp

theorem parseLines_eq_none (ls : List (List Char)) :
    parseLines ls = none ↔ ∃ l ∈ ls, parseLine l = none := by
  induction ls with
  | nil => simp [parseLines]
  | cons l ls ih =>
    cases hl : parseLine l with
    | none => simp [parseLines, hl]
    | some kv =>
      cases hls : parseLines ls with
      | none => simp [parseLines, hl, hls, ← ih]
      | some rest => simp [parseLines, hl, hls, ← ih]

theorem helperParse_eq_none_iff (result : String) :
    helperParse result = none ↔
      ∃ l ∈ splitOnChar '\n' result.data,
        l ≠ [] ∧ (splitOnChar '\t' l).length ≠ 2 := by
  unfold helperParse
  rw [parseLines_eq_none]
  constructor
  · rintro ⟨l, hmem, hnone⟩
    rw [List.mem_filter] at hmem
    exact ⟨l, hmem.1, by simpa using hmem.2, (parseLine_eq_none l).mp hnone⟩
  · rintro ⟨l, hmem, hne, hlen⟩
    exact ⟨l, List.mem_filter.mpr ⟨hmem, by simpa using hne⟩,
      (parseLine_eq_none l).mpr hlen⟩

theorem overwritePair_pos (k0 v0 : String) (p : String × String)
    (h : (p.1 == k0) = true) : overwritePair k0 v0 p = (p.1, v0) := by
  unfold overwritePair
  rw [h, if_pos rfl]

theorem overwritePair_neg (k0 v0 : String) (p : String × String)
    (h : (p.1 == k0) = false) : overwritePair k0 v0 p = p := by
  unfold overwritePair
  rw [h, if_neg Bool.false_ne_true]

theorem pyDictLookup_cons (p : String × String) (d : List (String × String))
    (k : String) :
    pyDictLookup (p :: d) k = if p.1 == k then some p.2 else pyDictLookup d k := by
  unfold pyDictLookup
  cases hk : p.1 == k with
  | true => simp [List.find?_cons, hk]
  | false => simp [List.find?_cons, hk]

theorem pyDictLookup_map_ne (d : List (String × String)) (k0 v0 k : String)
    (hne : (k0 == k) = false) :
    pyDictLookup (d.map (overwritePair k0 v0)) k = pyDictLookup d k := by
  induction d with
  | nil => rfl
  | cons p ps ih =>
    rw [List.map_cons, pyDictLookup_cons, pyDictLookup_cons]
    cases hp : p.1 == k0 with
    | true =>
      rw [overwritePair_pos k0 v0 p hp]
      have hpk : (p.1 == k) = false := by
        rw [beq_iff_eq] at hp
        rw [beq_eq_false_iff_ne] at hne ⊢
        rw [hp]
        exact hne
      rw [if_neg (by simp [hpk]), if_neg (by simp [hpk]), ih]
    | false =>
      rw [overwritePair_neg k0 v0 p hp, ih]

theorem pyDictLookup_map_eq (d : List (String × String)) (k0 v0 : String)
    (hany : d.any (fun p => p.1 == k0) = true) :
    pyDictLookup (d.map (overwritePair k0 v0)) k0 = some v0 := by
  induction d with
  | nil => simp at hany
  | cons p ps ih =>
    rw [List.map_cons, pyDictLookup_cons]
    cases hp : p.1 == k0 with
    | true =>
      rw [overwritePair_pos k0 v0 p hp,
        if_pos (show ((p.1, v0).1 == k0) = true from hp)]
    | false =>
      rw [overwritePair_neg k0 v0 p hp,
        if_neg (by rw [hp]; exact Bool.false_ne_true)]
      rw [List.any_cons, hp, Bool.false_or] at hany
      exact ih hany

theorem pyDictLookup_eq_none_of_not_any (d : List (String × String)) (k : String)
    (h : d.any (fun p => p.1 == k) = false) : pyDictLookup d k = none := by
  unfold pyDictLookup
  rw [List.find?_eq_none.mpr (List.any_eq_false.mp h)]
  rfl

theorem pyDictLookup_append_singleton (d : List (String × String))
    (kv : String × String) (k : String) (hnone : pyDictLookup d k = none) :
    pyDictLookup (d ++ [kv]) k = if kv.1 == k then some kv.2 else none := by
  unfold pyDictLookup at *
  have hfind : d.find? (fun p => p.1 == k) = none := by
    cases hf : d.find? (fun p => p.1 == k) with
    | none => rfl
    | some p => rw [hf] at hnone; simp at hnone
  rw [List.find?_append, hfind, Option.none_or]
  cases hk : kv.1 == k with
  | true => simp [List.find?_cons, hk]
  | false => simp [List.find?_cons, hk]

theorem pyDictLookup_insertPair (d : List (String × String)) (kv : String × String)
    (k : String) :
    pyDictLookup (insertPair d kv) k =
      if kv.1 == k then some kv.2 else pyDictLookup d k := by
  unfold insertPair
  cases hany : d.any (fun p => p.1 == kv.1) with
  | true =>
    rw [if_pos rfl]
    cases hk : kv.1 == k with
    | true =>
      have hk' : kv.1 = k := by rwa [beq_iff_eq] at hk
      subst hk'
      rw [pyDictLookup_map_eq d kv.1 kv.2 hany, if_pos rfl]
    | false =>
      rw [pyDictLookup_map_ne d kv.1 kv.2 k hk, if_neg (by simp [hk])]
  | false =>
    rw [if_neg Bool.false_ne_true]
    cases hk : kv.1 == k with
    | true =>
      have hk' : kv.1 = k := by rwa [beq_iff_eq] at hk
      subst hk'
      have hnone : pyDictLookup d kv.1 = none :=
        pyDictLookup_eq_none_of_not_any d kv.1 hany
      rw [pyDictLookup_append_singleton d kv kv.1 hnone]
      simp
    | false =>
      unfold pyDictLookup
      rw [List.find?_append]
      have hkv : List.find? (fun p => p.1 == k) [kv] = none := by
        simp [List.find?_cons, hk]
      rw [hkv, Option.or_none, if_neg (by simp [hk])]

theorem pyDict_append_singleton (ps : List (String × String)) (p : String × String) :
    pyDict (ps ++ [p]) = insertPair (pyDict ps) p := by
  unfold pyDict
  rw [List.foldl_append]
  rfl

theorem pyDict_last_wins (pairs : List (String × String)) (k : String) :
    pyDictLookup (pyDict pairs) k =
      ((pairs.filter (fun p => p.1 == k)).getLast?).map (fun p => p.2) := by
  induction pairs using List.reverseRecOn with
  | nil => rfl
  | append_singleton ps p ih =>
    rw [pyDict_append_singleton, pyDictLookup_insertPair, List.filter_append]
    cases hk : p.1 == k with
    | true =>
      rw [if_pos rfl]
      have hf : List.filter (fun q => q.1 == k) [p] = [p] := by
        simp [List.filter, hk]
      rw [hf, List.getLast?_concat]
      rfl
    | false =>
      rw [if_neg Bool.false_ne_true, ih]
      have hf : List.filter (fun q => q.1 == k) [p] = [] := by
        simp [List.filter, hk]
      rw [hf, List.append_nil]

theorem format05d_data (n : Nat) :
    (format05d ((n : Int))).data = padZeros 5 (natToDigits n) := by
  rw [format05d_nonneg]

theorem format05d_all_digit (n : Nat) :
    (format05d ((n : Int))).data.all Char.isDigit = true := by
  rw [format05d_data]
  exact padZeros_all_digit 5 _ (natToDigits_spec n).1

theorem format05d_ne_nil (n : Nat) : (format05d ((n : Int))).data ≠ [] := by
  rw [format05d_data]
  exact padZeros_ne_nil 5 _ (natToDigits_spec n).2.2

theorem digitsToNat_format05d (n : Nat) :
    digitsToNat (format05d ((n : Int))).data = n := by
  rw [format05d_data, digitsToNat_padZeros]
  exact (natToDigits_spec n).2.1

theorem casenum_data (project x : String) :
    (project ++ "-" ++ x).data = project.data ++ '-' :: x.data := by
  rw [data_append, data_append, List.append_assoc]
  rfl

theorem casenum_no_char (project : String) (n : Nat) (d : Char)
    (hd : d.isDigit = false) (hdm : d ≠ '-')
    (hp : ∀ c ∈ project.data, c ≠ d) :
    ∀ c ∈ (project ++ "-" ++ format05d ((n : Int))).data, c ≠ d := by
  rw [casenum_data]
  intro c hc
  rcases List.mem_append.mp hc with h | h
  · exact hp c h
  · rcases List.mem_cons.mp h with he | hm
    · rw [he]
      exact fun e => hdm e.symm
    · exact ne_of_isDigit c (List.all_eq_true.mp (format05d_all_digit n) c hm) d hd

theorem entry_line_data (rn : String) (msns : List String) (cn : String) :
    (entryString rn msns cn ++ "\n").data =
      cn.data ++ ',' :: ((joinComma msns ++ "," ++ rn).data ++ ['\n']) := by
  rw [entryString_eq]
  simp [data_append, List.append_assoc]

theorem casenumOfLast_eq_none_iff (l : List Char) :
    casenumOfLast l = none ↔
      (splitOnChar '-' ((splitOnChar ',' l).headD [])).length ≠ 2 ∨
      ∃ p num, splitOnChar '-' ((splitOnChar ',' l).headD []) = [p, num] ∧
        pyInt num = none := by
  unfold casenumOfLast
  cases h : splitOnChar '-' ((splitOnChar ',' l).headD []) with
  | nil => simp
  | cons a t =>
    cases t with
    | nil => simp
    | cons b t2 =>
      cases t2 with
      | nil =>
        cases hpy : pyInt b with
        | none => simp [hpy]; exact ⟨a, b, ⟨rfl, rfl⟩, hpy⟩
        | some n => simp [hpy]
      | cons c t3 => simp

theorem gen_casenum_eq_none_iff (content : String) :
    gen_casenum content = none ↔
      (content = "" ∨ ∃ last, (pyReadlines content).getLast? = some last ∧
        ((splitOnChar '-' ((splitOnChar ',' last.data).headD [])).length ≠ 2 ∨
         ∃ p num, splitOnChar '-' ((splitOnChar ',' last.data).headD []) = [p, num] ∧
           pyInt num = none)) := by
  unfold gen_casenum
  cases hl : (pyReadlines content).getLast? with
  | none =>
    have hnil : pyReadlines content = [] := by
      cases he : pyReadlines content with
      | nil => rfl
      | cons x xs => rw [he] at hl; simp [List.getLast?_concat] at hl
    have : content = "" := (pyReadlines_eq_nil_iff content).mp hnil
    simp [this]
  | some last =>
    have hne : content ≠ "" := by
      intro he
      subst he
      rw [show pyReadlines ("") = [] from rfl] at hl
      simp at hl
    rw [casenumOfLast_eq_none_iff]
    constructor
    · intro hc
      exact Or.inr ⟨last, rfl, hc⟩
    · rintro (he | ⟨last2, hl2, hc⟩)
      · exact absurd he hne
      · rw [Option.some_inj] at hl2
        rw [hl2]
        exact hc

/-! ### Claim theorems -/

/-- C1: if the last line of the case-list file is `ABC-00001,MSN0001,Run1` (with or
without its trailing newline), the collector yields exactly `MSN0002`, and the
run name is `Run2`, then gen_casenum produces `ABC-00002` and the appender
writes exactly the line `ABC-00002,MSN0002,Run2` plus a newline after all
existing content. -/
theorem claim_C1_end_to_end (content : String)
    (h : (pyReadlines content).getLast? = some ("ABC-00001,MSN0001,Run1\n") ∨
      (pyReadlines content).getLast? = some ("ABC-00001,MSN0001,Run1")) :
    ∃ cn, gen_casenum content = some cn ∧
      gen_case_list_string ("Run2") (["MSN0002"]) cn content =
        content ++ ("ABC-00002,MSN0002,Run2\n") := by
  have hcn : gen_casenum content = some ("ABC-00002") := by
    rcases h with h | h
    · rw [gen_casenum_of_last content _ h]
      decide
    · rw [gen_casenum_of_last content _ h]
      decide
  refine ⟨("ABC-00002"), hcn, ?_⟩
  unfold gen_case_list_string
  rw [show entryString ("Run2") (["MSN0002"]) ("ABC-00002") =
    ("ABC-00002,MSN0002,Run2") from by decide]
  apply str_ext
  rw [data_append, data_append, data_append, List.append_assoc]
  congr 1

/-- C1 witness: the theorem evaluated on the one-line file. -/
theorem claim_C1_end_to_end_witness :
    ∃ cn, gen_casenum ("ABC-00001,MSN0001,Run1\n") = some cn ∧
      gen_case_list_string ("Run2") (["MSN0002"]) cn ("ABC-00001,MSN0001,Run1\n") =
        ("ABC-00001,MSN0001,Run1\n") ++ ("ABC-00002,MSN0002,Run2\n") :=
  claim_C1_end_to_end ("ABC-00001,MSN0001,Run1\n") (Or.inl (by decide))

/-- C2: whenever the first comma-field of the last line is
`<project>-<digits>` (project hyphen-free, digits a non-empty digit run),
gen_casenum returns `<project>-` followed by the successor zero-padded to a
minimum of 5 digits; in particular `PROJ-00042` yields `PROJ-00043`,
`PROJ-00999` yields `PROJ-01000`, and `PROJ-999999` yields `PROJ-1000000`
without truncation. -/
theorem claim_C2_casenum (content last project digits : String)
    (hlast : (pyReadlines content).getLast? = some last)
    (hfield : (splitOnChar ',' last.data).headD [] = project.data ++ '-' :: digits.data)
    (hproj : ∀ c ∈ project.data, c ≠ '-')
    (hd1 : digits.data ≠ []) (hd2 : digits.data.all Char.isDigit = true) :
    gen_casenum content =
      some (project ++ "-" ++ format05d ((digitsToNat digits.data : Int) + 1)) ∧
    gen_casenum ("PROJ-00042,s1,Run\n") = some ("PROJ-00043") ∧
    gen_casenum ("PROJ-00999,s1,Run\n") = some ("PROJ-01000") ∧
    gen_casenum ("PROJ-999999,s1,Run\n") = some ("PROJ-1000000") :=
  ⟨gen_casenum_spec content last project digits hlast hfield hproj hd1 hd2,
    by decide, by decide, by decide⟩

/-- C2 witness: the theorem evaluated on a file whose last line starts with
`PROJ-00042`, with the padded successor evaluated. -/
theorem claim_C2_casenum_witness :
    gen_casenum ("PROJ-00042,s1,Run\n") =
      some (("PROJ") ++ "-" ++ format05d ((digitsToNat (("00042").data) : Int) + 1)) ∧
    format05d ((digitsToNat (("00042").data) : Int) + 1) = ("00043") :=
  ⟨(claim_C2_casenum ("PROJ-00042,s1,Run\n") ("PROJ-00042,s1,Run\n") ("PROJ") ("00042")
      (by decide) (by decide) (by decide) (by decide) (by decide)).1,
    by decide⟩

/-- C3 counterexample: on the non-matching path `foo`, get_runname returns the
input and emits its warning on standard output while standard error stays
empty — the claim says the warning goes to the standard error stream. -/
theorem claim_C3_counterexample :
    (get_runname ("foo")).name = ("foo") ∧
    (get_runname ("foo")).toStderr = ("") ∧
    (get_runname ("foo")).toStdout ≠ ("") := by decide

/-- C3 (amended): for every path whose final segment (after stripping
trailing slashes, and allowing one final newline, which the `$` anchor
tolerates) is `Auto_user_<name>_<digits>_<digits>` where `<name>` has at
least 3 characters, its last 3 characters are word characters and it
contains no newline, get_runname returns exactly `<name>` with nothing
printed; for every non-matching path it returns the input unchanged and
emits a non-empty warning on standard output (not standard error). -/
theorem claim_C3_runname (rundir name d1 d2 suffix : String)
    (hbase : pyBasename (rstripSlash rundir) =
      ("Auto_user_") ++ name ++ ("_") ++ d1 ++ ("_") ++ d2 ++ suffix)
    (hsuf : suffix = ("") ∨ suffix = ("\n"))
    (hd1n : d1.data ≠ []) (hd1 : d1.data.all Char.isDigit = true)
    (hd2n : d2.data ≠ []) (hd2 : d2.data.all Char.isDigit = true)
    (hlen : 3 ≤ name.data.length)
    (hword : (name.data.reverse.take 3).all wordChar = true)
    (hnl : name.data.all (fun c => c != '\n') = true) :
    get_runname rundir = ⟨name, "", ""⟩ ∧
    (∀ r : String, matchRunname (pyBasename (rstripSlash r)).data = none →
      get_runname r = ⟨r, warnMsg r, ""⟩ ∧ warnMsg r ≠ ("")) := by
  constructor
  · have hdata : (pyBasename (rstripSlash rundir)).data =
        ("Auto_user_").data ++
          (name.data ++ ('_' :: (d1.data ++ ('_' :: (d2.data ++ suffix.data))))) := by
      rw [hbase]
      simp [data_append, List.append_assoc,
        show (("_") : String).data = ['_'] from rfl]
    have hsuf2 : suffix.data = [] ∨ suffix.data = ['\n'] := by
      rcases hsuf with h | h
      · rw [h]
        exact Or.inl rfl
      · rw [h]
        exact Or.inr rfl
    have hm := matchRunname_decomp name.data d1.data d2.data suffix.data
      hd1n hd1 hd2n hd2 hlen hword hnl hsuf2
    rw [← hdata] at hm
    rw [get_runname_of_match rundir name.data hm, mk_data]
  · intro r hr
    refine ⟨get_runname_of_none r hr, ?_⟩
    intro he
    have hd := congrArg String.data he
    unfold warnMsg at hd
    rw [data_append, data_append, show (("") : String).data = [] from rfl] at hd
    rcases List.append_eq_nil.mp hd with ⟨hd1x, -⟩
    rcases List.append_eq_nil.mp hd1x with ⟨hd2x, -⟩
    exact absurd hd2x (by decide)

/-- C3 witness: the theorem evaluated on `Auto_user_MyExp_123_456` carrying
a trailing newline, the case the `$` anchor tolerates. -/
theorem claim_C3_runname_witness :
    get_runname ("Auto_user_MyExp_123_456\n") = ⟨"MyExp", "", ""⟩ :=
  (claim_C3_runname ("Auto_user_MyExp_123_456\n") ("MyExp") ("123") ("456")
    ("\n") (by decide) (Or.inr rfl) (by decide) (by decide) (by decide)
    (by decide) (by decide) (by decide) (by decide)).1

/-- C4: in standard mode, whenever the helper output parses, the collector
returns a duplicate-free list whose members are exactly the values of the
key/value mapping that start with `MSN`, each with its final 4 characters
stripped; in particular for the helper output
`MSN1234XYZ\tA0001ABCD\nMSN1234XYZ\tA0002EFGH\n` (whose values do not start
with `MSN`) that set is empty. -/
theorem claim_C4_standard_mode (output : String) (pairs : List (String × String))
    (hp : helperParse output = some pairs) :
    (∃ r, get_msn_list output false = some r ∧ r.Nodup ∧
      (∀ x, x ∈ r ↔ ∃ v ∈ pyDictValues pairs,
        pyStartswith ("MSN") v = true ∧ x = strip4 v)) ∧
    get_msn_list ("MSN1234XYZ\tA0001ABCD\nMSN1234XYZ\tA0002EFGH\n") false =
      some [] := by
  refine ⟨⟨(((pyDictValues pairs).filter
      (fun v => pyStartswith ("MSN") v)).map strip4).dedup, ?_, ?_, ?_⟩, by decide⟩
  · unfold get_msn_list
    rw [hp]
    rfl
  · exact List.nodup_dedup _
  · intro x
    rw [List.mem_dedup, List.mem_map]
    constructor
    · rintro ⟨v, hv, hx⟩
      rw [List.mem_filter] at hv
      exact ⟨v, hv.1, hv.2, hx.symm⟩
    · rintro ⟨v, hv, hstart, hx⟩
      exact ⟨v, List.mem_filter.mpr ⟨hv, hstart⟩, hx.symm⟩

/-- C4 witness: the theorem evaluated on helper output `k\tMSN0002ABCD`. -/
theorem claim_C4_standard_mode_witness :
    (∃ r, get_msn_list ("k\tMSN0002ABCD") false = some r ∧ r.Nodup ∧
      (∀ x, x ∈ r ↔ ∃ v ∈ pyDictValues ([(("k"), ("MSN0002ABCD"))]),
        pyStartswith ("MSN") v = true ∧ x = strip4 v)) ∧
    get_msn_list ("MSN1234XYZ\tA0001ABCD\nMSN1234XYZ\tA0002EFGH\n") false =
      some [] :=
  claim_C4_standard_mode ("k\tMSN0002ABCD") ([(("k"), ("MSN0002ABCD"))]) (by decide)

/-- C5: whenever the collector returns an empty list, the program exits with
status 1 (an explicit error, not an exception), writes the `ERROR` diagnostic
to standard error, leaves the case-list content unchanged regardless of its
shape (so the case number is never read), and the backup of the original
content has already been made. -/
theorem claim_C5_empty_msns (rundir : String) (pedmatch : Bool) (helperOut : String)
    (caselistPath : String) (st : ProgState)
    (h : get_msn_list helperOut pedmatch = some []) :
    (mainRun rundir pedmatch helperOut caselistPath st).outcome = Outcome.errorExit ∧
    exitCode (mainRun rundir pedmatch helperOut caselistPath st).outcome ≠ 0 ∧
    (mainRun rundir pedmatch helperOut caselistPath st).stderrText =
      msnInfoMsg pedmatch ++
        ("ERROR: No valid MSNs found in run plan! Can not continue.\n") ∧
    (mainRun rundir pedmatch helperOut caselistPath st).state.caselist =
      st.caselist ∧
    (mainRun rundir pedmatch helperOut caselistPath st).state.backup =
      some st.caselist := by
  have hmain : mainRun rundir pedmatch helperOut caselistPath st =
      ⟨Outcome.errorExit, (get_runname rundir).toStdout,
        msnInfoMsg pedmatch ++
          ("ERROR: No valid MSNs found in run plan! Can not continue.\n"),
        backupPath caselistPath, ⟨st.caselist, some st.caselist⟩⟩ := by
    unfold mainRun
    rw [h]
    rfl
  rw [hmain]
  exact ⟨rfl, (by decide : (1 : Nat) ≠ 0), rfl, rfl, rfl⟩

/-- C5 witness: the theorem evaluated with empty helper output and a
malformed case-list. -/
theorem claim_C5_empty_msns_witness :
    (mainRun ("d") false ("") ("cl.csv") ⟨"bad", none⟩).outcome =
      Outcome.errorExit :=
  (claim_C5_empty_msns ("d") false ("") ("cl.csv") ⟨"bad", none⟩ (by decide)).1

/-- C6 counterexample: the helper output `abc` has a non-empty line without a
tab; the claim says such a line is silently skipped, but the collector
raises (models as `none`) because `dict(...)` rejects a 1-element item. -/
theorem claim_C6_counterexample :
    get_msn_list ("abc") false = none ∧ helperParse ("abc") = none := by decide

/-- C6 (amended): empty helper-output lines are silently skipped, but a
non-empty line that does not split into exactly two tab-fields makes the
parse raise an uncaught ValueError; when all lines are well formed, the
mapping resolves duplicate keys by letting the last occurrence win. -/
theorem claim_C6_line_handling :
    (∀ output : String, helperParse output = none ↔
      ∃ l ∈ splitOnChar '\n' output.data,
        l ≠ [] ∧ (splitOnChar '\t' l).length ≠ 2) ∧
    (∀ (pairs : List (String × String)) (k : String),
      pyDictLookup (pyDict pairs) k =
        ((pairs.filter (fun p => p.1 == k)).getLast?).map (fun p => p.2)) ∧
    helperParse ("a\tb\n\nc\td\n") = some [(("a"), ("b")), (("c"), ("d"))] :=
  ⟨helperParse_eq_none_iff, pyDict_last_wins, by decide⟩

theorem mainRun_exception_eq (rundir : String) (pedmatch : Bool)
    (helperOut caselistPath : String) (st : ProgState) (m : String)
    (ms : List String)
    (hm : get_msn_list helperOut pedmatch = some (m :: ms))
    (hgc : gen_casenum st.caselist = none) :
    mainRun rundir pedmatch helperOut caselistPath st =
      ⟨Outcome.exception, (get_runname rundir).toStdout, msnInfoMsg pedmatch,
        backupPath caselistPath, ⟨st.caselist, some st.caselist⟩⟩ := by
  unfold mainRun
  rw [hm]
  show (match gen_casenum st.caselist with
    | none =>
      (⟨Outcome.exception, (get_runname rundir).toStdout, msnInfoMsg pedmatch,
        backupPath caselistPath, ⟨st.caselist, some st.caselist⟩⟩ : MainResult)
    | some cn =>
      ⟨Outcome.ok,
        (get_runname rundir).toStdout ++ "Adding new entry to case list file:\n" ++
          entryString (get_runname rundir).name (m :: ms) cn ++ "\n",
        msnInfoMsg pedmatch, backupPath caselistPath,
        ⟨gen_case_list_string (get_runname rundir).name (m :: ms) cn st.caselist,
          some st.caselist⟩⟩) = _
  rw [hgc]

theorem mainRun_ok_eq (rundir : String) (pedmatch : Bool)
    (helperOut caselistPath : String) (st : ProgState) (m : String)
    (ms : List String) (cn : String)
    (hm : get_msn_list helperOut pedmatch = some (m :: ms))
    (hgc : gen_casenum st.caselist = some cn) :
    mainRun rundir pedmatch helperOut caselistPath st =
      ⟨Outcome.ok,
        (get_runname rundir).toStdout ++ "Adding new entry to case list file:\n" ++
          entryString (get_runname rundir).name (m :: ms) cn ++ "\n",
        msnInfoMsg pedmatch, backupPath caselistPath,
        ⟨gen_case_list_string (get_runname rundir).name (m :: ms) cn st.caselist,
          some st.caselist⟩⟩ := by
  unfold mainRun
  rw [hm]
  show (match gen_casenum st.caselist with
    | none =>
      (⟨Outcome.exception, (get_runname rundir).toStdout, msnInfoMsg pedmatch,
        backupPath caselistPath, ⟨st.caselist, some st.caselist⟩⟩ : MainResult)
    | some cn =>
      ⟨Outcome.ok,
        (get_runname rundir).toStdout ++ "Adding new entry to case list file:\n" ++
          entryString (get_runname rundir).name (m :: ms) cn ++ "\n",
        msnInfoMsg pedmatch, backupPath caselistPath,
        ⟨gen_case_list_string (get_runname rundir).name (m :: ms) cn st.caselist,
          some st.caselist⟩⟩) = _
  rw [hgc]

/-- C7 counterexample: a case-list whose last line `ABC-00001` has no comma
does not raise — gen_casenum happily returns `ABC-00002`, contradicting the
claim that a comma-less last line is a failure condition. -/
theorem claim_C7_counterexample :
    gen_casenum ("ABC-00001") = some ("ABC-00002") := by decide

/-- C7 (amended): gen_casenum raises exactly when the file is empty, when
the first comma-field of the last line does not split on `-` into exactly
two parts, or when the part after the hyphen is not an integer; a last line
with a comma but no hyphen raises, a comma-less last line need not.  When it
raises inside the main flow, the process ends with an uncaught exception and
the case-list is not written (the backup already exists). -/
theorem claim_C7_failure_conditions :
    (∀ content : String, gen_casenum content = none ↔
      (content = "" ∨ ∃ last, (pyReadlines content).getLast? = some last ∧
        ((splitOnChar '-' ((splitOnChar ',' last.data).headD [])).length ≠ 2 ∨
         ∃ p num, splitOnChar '-' ((splitOnChar ',' last.data).headD []) =
            [p, num] ∧ pyInt num = none))) ∧
    gen_casenum ("") = none ∧
    gen_casenum ("ABC00001,x") = none ∧
    gen_casenum ("A-B-00001,x") = none ∧
    gen_casenum ("ABC-12a,x") = none ∧
    (∀ (rundir : String) (pedmatch : Bool) (helperOut caselistPath : String)
        (st : ProgState) (msns : List String),
      get_msn_list helperOut pedmatch = some msns → msns ≠ [] →
      gen_casenum st.caselist = none →
      (mainRun rundir pedmatch helperOut caselistPath st).outcome =
        Outcome.exception ∧
      exitCode (mainRun rundir pedmatch helperOut caselistPath st).outcome ≠ 0 ∧
      (mainRun rundir pedmatch helperOut caselistPath st).state.caselist =
        st.caselist ∧
      (mainRun rundir pedmatch helperOut caselistPath st).state.backup =
        some st.caselist) := by
  refine ⟨gen_casenum_eq_none_iff, by decide, by decide, by decide, by decide, ?_⟩
  intro rundir pedmatch helperOut caselistPath st msns hm hne hgc
  obtain ⟨m, ms, rfl⟩ := List.exists_cons_of_ne_nil hne
  rw [mainRun_exception_eq rundir pedmatch helperOut caselistPath st m ms hm hgc]
  exact ⟨rfl, (by decide : (1 : Nat) ≠ 0), rfl, rfl⟩

/-- C7 witness: the theorem applied with a valid sample list and a case-list
whose last line has a comma but no hyphen. -/
theorem claim_C7_failure_conditions_witness :
    (mainRun ("d") false ("k\tMSNabcd") ("cl.csv") ⟨"ABC00001,x", none⟩).outcome =
      Outcome.exception :=
  (claim_C7_failure_conditions.2.2.2.2.2 ("d") false ("k\tMSNabcd") ("cl.csv")
    ⟨"ABC00001,x", none⟩ (["MSN"]) (by decide) (by decide) (by decide)).1

/-- C8 counterexample: when the case-list does not end with a newline, a
successful run merges the appended record into the last pre-existing line:
the file still has one line afterwards and the original line `ABC-00001` is
gone, so "all pre-existing lines unchanged plus one new line" fails. -/
theorem claim_C8_counterexample :
    (mainRun ("Run2") false ("k\tMSN0002ABCD") ("cl.csv")
        ⟨"ABC-00001", none⟩).outcome = Outcome.ok ∧
    pyReadlines ("ABC-00001") = [("ABC-00001")] ∧
    pyReadlines (mainRun ("Run2") false ("k\tMSN0002ABCD") ("cl.csv")
        ⟨"ABC-00001", none⟩).state.caselist =
      [("ABC-00001ABC-00002,MSN0002,Run2\n")] ∧
    ("ABC-00001") ∉ pyReadlines (mainRun ("Run2") false ("k\tMSN0002ABCD")
        ("cl.csv") ⟨"ABC-00001", none⟩).state.caselist := by decide

/-- C8 (amended): provided the case-list content ends with a newline and its
first comma-field of its last line is `<project>-<digits>` (project free of `-`,
`,` and newline; digits a non-empty digit run; run names and sample
identifiers newline-free), a successful invocation keeps every pre-existing
line unchanged and appends exactly one line carrying the incremented case
number, and a second sequential invocation appends one further line with the
next consecutive case number. -/
theorem claim_C8_append_invariant
    (content last project digits rn rn2 : String) (msns msns2 : List String)
    (hend : content.data.getLast? = some '\n')
    (hlast : (pyReadlines content).getLast? = some last)
    (hfield : (splitOnChar ',' last.data).headD [] =
      project.data ++ '-' :: digits.data)
    (hproj : ∀ c ∈ project.data, c ≠ '-')
    (hprojc : ∀ c ∈ project.data, c ≠ ',')
    (hprojn : ∀ c ∈ project.data, c ≠ '\n')
    (hd1 : digits.data ≠ []) (hd2 : digits.data.all Char.isDigit = true)
    (hrn : ∀ c ∈ rn.data, c ≠ '\n')
    (hmsns : ∀ m ∈ msns, ∀ c ∈ m.data, c ≠ '\n')
    (hrn2 : ∀ c ∈ rn2.data, c ≠ '\n')
    (hmsns2 : ∀ m ∈ msns2, ∀ c ∈ m.data, c ≠ '\n') :
    gen_casenum content =
      some (project ++ "-" ++ format05d ((digitsToNat digits.data : Int) + 1)) ∧
    pyReadlines (gen_case_list_string rn msns
        (project ++ "-" ++ format05d ((digitsToNat digits.data : Int) + 1)) content) =
      pyReadlines content ++
        [entryString rn msns
          (project ++ "-" ++ format05d ((digitsToNat digits.data : Int) + 1)) ++ "\n"] ∧
    gen_casenum (gen_case_list_string rn msns
        (project ++ "-" ++ format05d ((digitsToNat digits.data : Int) + 1)) content) =
      some (project ++ "-" ++ format05d ((digitsToNat digits.data : Int) + 2)) ∧
    pyReadlines (gen_case_list_string rn2 msns2
        (project ++ "-" ++ format05d ((digitsToNat digits.data : Int) + 2))
        (gen_case_list_string rn msns
          (project ++ "-" ++ format05d ((digitsToNat digits.data : Int) + 1)) content)) =
      pyReadlines content ++
        [entryString rn msns
            (project ++ "-" ++ format05d ((digitsToNat digits.data : Int) + 1)) ++ "\n",
          entryString rn2 msns2
            (project ++ "-" ++ format05d ((digitsToNat digits.data : Int) + 2)) ++ "\n"] := by
  have h1 : gen_casenum content =
      some (project ++ "-" ++ format05d ((digitsToNat digits.data : Int) + 1)) :=
    gen_casenum_spec content last project digits hlast hfield hproj hd1 hd2
  generalize hgen : digitsToNat digits.data = n at h1 ⊢
  have hn1 : ((n : Int) + 1) = (((n + 1 : Nat)) : Int) := by omega
  have hn2 : ((n : Int) + 2) = (((n + 2 : Nat)) : Int) := by omega
  have hcn1comma : ∀ c ∈ (project ++ "-" ++ format05d ((n : Int) + 1)).data, c ≠ ',' := by
    rw [hn1]
    exact casenum_no_char project (n + 1) ',' (by decide) (by decide) hprojc
  have hcn1nl : ∀ c ∈ (project ++ "-" ++ format05d ((n : Int) + 1)).data, c ≠ '\n' := by
    rw [hn1]
    exact casenum_no_char project (n + 1) '\n' (by decide) (by decide) hprojn
  have hline1 : ∀ c ∈ (entryString rn msns
      (project ++ "-" ++ format05d ((n : Int) + 1))).data, c ≠ '\n' :=
    entry_no_newline rn msns _ hcn1nl hmsns hrn
  have h2 : pyReadlines (gen_case_list_string rn msns
      (project ++ "-" ++ format05d ((n : Int) + 1)) content) =
      pyReadlines content ++
        [entryString rn msns (project ++ "-" ++ format05d ((n : Int) + 1)) ++ "\n"] :=
    pyReadlines_append_line content _ (Or.inr hend) hline1
  have hlast2 : (pyReadlines (gen_case_list_string rn msns
      (project ++ "-" ++ format05d ((n : Int) + 1)) content)).getLast? =
      some (entryString rn msns (project ++ "-" ++ format05d ((n : Int) + 1)) ++ "\n") := by
    rw [h2, List.getLast?_concat]
  have hfield2 : (splitOnChar ','
      ((entryString rn msns (project ++ "-" ++ format05d ((n : Int) + 1)) ++ "\n")).data).headD [] =
      project.data ++ '-' :: (format05d ((n : Int) + 1)).data := by
    rw [entry_line_data,
      headD_split_comma (project ++ "-" ++ format05d ((n : Int) + 1)).data _ hcn1comma,
      casenum_data]
  have hd21 : (format05d ((n : Int) + 1)).data ≠ [] := by
    rw [hn1]
    exact format05d_ne_nil (n + 1)
  have hd22 : (format05d ((n : Int) + 1)).data.all Char.isDigit = true := by
    rw [hn1]
    exact format05d_all_digit (n + 1)
  have h3 := gen_casenum_spec
    (gen_case_list_string rn msns (project ++ "-" ++ format05d ((n : Int) + 1)) content)
    (entryString rn msns (project ++ "-" ++ format05d ((n : Int) + 1)) ++ "\n")
    project (format05d ((n : Int) + 1)) hlast2 hfield2 hproj hd21 hd22
  have hdig : digitsToNat (format05d ((n : Int) + 1)).data = n + 1 := by
    rw [hn1]
    exact digitsToNat_format05d (n + 1)
  rw [hdig, show (((n + 1 : Nat) : Int) + 1) = ((n : Int) + 2) from by omega] at h3
  have hend2 : (gen_case_list_string rn msns
      (project ++ "-" ++ format05d ((n : Int) + 1)) content).data.getLast? = some '\n' := by
    unfold gen_case_list_string
    rw [data_append, show (("\n") : String).data = ['\n'] from rfl]
    exact List.getLast?_concat _
  have hcn2nl : ∀ c ∈ (project ++ "-" ++ format05d ((n : Int) + 2)).data, c ≠ '\n' := by
    rw [hn2]
    exact casenum_no_char project (n + 2) '\n' (by decide) (by decide) hprojn
  have hline2 : ∀ c ∈ (entryString rn2 msns2
      (project ++ "-" ++ format05d ((n : Int) + 2))).data, c ≠ '\n' :=
    entry_no_newline rn2 msns2 _ hcn2nl hmsns2 hrn2
  have h4 : pyReadlines (gen_case_list_string rn2 msns2
      (project ++ "-" ++ format05d ((n : Int) + 2))
      (gen_case_list_string rn msns (project ++ "-" ++ format05d ((n : Int) + 1)) content)) =
      pyReadlines (gen_case_list_string rn msns
        (project ++ "-" ++ format05d ((n : Int) + 1)) content) ++
        [entryString rn2 msns2 (project ++ "-" ++ format05d ((n : Int) + 2)) ++ "\n"] :=
    pyReadlines_append_line _ _ (Or.inr hend2) hline2
  refine ⟨h1, h2, h3, ?_⟩
  rw [h4, h2, List.append_assoc]
  rfl

/-- C8 witness: two sequential appends on `ABC-00001,M,Run0\n` yield the
consecutive case number. -/
theorem claim_C8_append_invariant_witness :
    gen_casenum (gen_case_list_string ("Run1") (["MSN0002"])
        (("ABC") ++ "-" ++ format05d ((digitsToNat (("00001").data) : Int) + 1))
        ("ABC-00001,M,Run0\n")) =
      some (("ABC") ++ "-" ++ format05d ((digitsToNat (("00001").data) : Int) + 2)) :=
  (claim_C8_append_invariant ("ABC-00001,M,Run0\n") ("ABC-00001,M,Run0\n")
    ("ABC") ("00001") ("Run1") ("Run2") (["MSN0002"]) (["MSN0003"])
    (by decide) (by decide) (by decide) (by decide) (by decide) (by decide)
    (by decide) (by decide) (by decide) (by decide) (by decide) (by decide)).2.2.1

/-- C9 counterexample: the backup of `clia_case_list.csv` is named
`.clia_case_list.csv.bak`, not just the dot-prefixed original filename — a
`.bak` suffix is also appended. -/
theorem claim_C9_counterexample :
    backupPath ("clia_case_list.csv") ≠ ("." ++ ("clia_case_list.csv")) ∧
    backupPath ("clia_case_list.csv") = (".clia_case_list.csv.bak") := by decide

/-- C9 (amended): every invocation (whatever its outcome) writes the backup
into the same directory as the case-list, under the original filename
prefixed with a dot and suffixed with `.bak`, and the backup content is
unconditionally set to the current case-list content, overwriting whatever
backup existed before. -/
theorem claim_C9_backup :
    (∀ cfile : String, bakFileName cfile = (".") ++ cfile ++ (".bak")) ∧
    (∀ caselist : String, backupPath caselist =
      pyJoin (pySplitPath caselist).1 (bakFileName (pySplitPath caselist).2)) ∧
    (∀ (rundir : String) (pedmatch : Bool) (helperOut caselistPath : String)
        (st : ProgState),
      (mainRun rundir pedmatch helperOut caselistPath st).bakPath =
        backupPath caselistPath ∧
      (mainRun rundir pedmatch helperOut caselistPath st).state.backup =
        some st.caselist) ∧
    backupPath ("data/clia_case_list.csv") = ("data/.clia_case_list.csv.bak") := by
  refine ⟨fun cfile => rfl, fun caselist => rfl, ?_, by decide⟩
  intro rundir pedmatch helperOut caselistPath st
  unfold mainRun
  cases get_msn_list helperOut pedmatch with
  | none => exact ⟨rfl, rfl⟩
  | some msns =>
    cases msns with
    | nil => exact ⟨rfl, rfl⟩
    | cons m ms =>
      cases gen_casenum st.caselist with
      | none => exact ⟨rfl, rfl⟩
      | some cn => exact ⟨rfl, rfl⟩

/-- C10: a mapping value that passes the `MSN` filter but has at most 4
characters is stripped to the empty string without error, so the collector
returns a list containing the empty identifier; that list passes the
empty-list check, and (concretely, for helper output `key\tMSN`) the record
appended to the case list carries an empty sample field. -/
theorem claim_C10_short_value (output : String) (pairs : List (String × String))
    (v : String) (hp : helperParse output = some pairs)
    (hv : v ∈ pyDictValues pairs) (hstart : pyStartswith ("MSN") v = true)
    (hshort : v.data.length ≤ 4) :
    (∃ r, get_msn_list output false = some r ∧ ("") ∈ r ∧ ¬ (r.length < 1)) ∧
    (mainRun ("run1") false ("key\tMSN") ("cl.csv")
        ⟨"ABC-00001,M,Run0\n", none⟩).outcome = Outcome.ok ∧
    (mainRun ("run1") false ("key\tMSN") ("cl.csv")
        ⟨"ABC-00001,M,Run0\n", none⟩).state.caselist =
      ("ABC-00001,M,Run0\n") ++ ("ABC-00002,,run1\n") := by
  refine ⟨?_, by decide, by decide⟩
  have hmem : ("") ∈ (((pyDictValues pairs).filter
      (fun v => pyStartswith ("MSN") v)).map strip4).dedup := by
    rw [List.mem_dedup, List.mem_map]
    refine ⟨v, List.mem_filter.mpr ⟨hv, hstart⟩, ?_⟩
    unfold strip4
    rw [show v.data.length - 4 = 0 from by omega, List.take_zero]
  refine ⟨_, ?_, hmem, ?_⟩
  · unfold get_msn_list
    rw [hp]
    rfl
  · have hpos := List.length_pos.mpr (List.ne_nil_of_mem hmem)
    omega

/-- C10 witness: the theorem evaluated on helper output `key\tMSN`. -/
theorem claim_C10_short_value_witness :
    ∃ r, get_msn_list ("key\tMSN") false = some r ∧ ("") ∈ r ∧ ¬ (r.length < 1) :=
  (claim_C10_short_value ("key\tMSN") ([(("key"), ("MSN"))]) ("MSN")
    (by decide) (by decide) (by decide) (by decide)).1

end CliaCase
